import Mathlib

/-!
Shallow embedding of the tBTC relay block forwarder
(`relay/pkg/block/forwarder.go`) and the orchestration loop around it.

Pure data and arithmetic are translated directly from the Go source.
Concurrency (the headers channel, timers, context cancellation) is made
explicit: the pull phase is a function over a list of scheduler events
(header availability, idle-timer fire, cancellation), and the orchestration
loop is a function over per-iteration environments.  Go `int64` heights and
the Go `%` operator are modelled with `Int` and `Int.tmod` (Go `%`
truncates toward zero, as `tmod` does).

The bodies of the three classification branches and of `updateBestHeader`
are `TODO` placeholders in the source; the host-chain effects they are
specified to have are modelled from the spec and marked as such below.
-/

namespace Relay

/-- A 32-byte digest, modelled as a list of byte values. -/
abbrev Digest := List Nat

/-- Bitcoin block header identity, from `relay/pkg/btc` (fields used by the
forwarder: `Height int64`, `Hash [32]byte`, `PrevHash [32]byte`). -/
structure Header where
  height : Int
  hash : Digest
  prevHash : Digest
deriving Repr, DecidableEq

/-- `headersQueueSize = 50` from forwarder.go. -/
def headersQueueSize : Nat := 50

/-- `headersBatchSize = 5` from forwarder.go. -/
def headersBatchSize : Nat := 5

/-- `difficultyEpochDuration = 2016` from forwarder.go. -/
def difficultyEpochDuration : Int := 2016

/-- The forwarder's private mutable state.  `processedHeaders` is the Go
`int` field; `bestKnownDigest` records the digest last committed through
`updateBestHeader` (modelled from the spec: the source body of
`updateBestHeader` is a TODO placeholder, specified in spec 4.3 and 6 to
commit the given header's digest as the host chain's best-known digest). -/
structure Forwarder where
  processedHeaders : Int
  bestKnownDigest : Option Digest
deriving Repr, DecidableEq

/-- The forwarder state as created by `RunForwarder`: Go zero-initializes
`processedHeaders` to 0 and no best digest has been committed yet. -/
def RunForwarder : Forwarder :=
  { processedHeaders := 0, bestKnownDigest := none }

/-- The three-way difficulty-epoch classification of a batch, from the
branch structure of `pushHeadersToChain` (forwarder.go lines 155-167). -/
inductive EpochClass where
  | boundaryFirst
  | boundarySpanning
  | singleEpoch
deriving Repr, DecidableEq

/-- `startDifficulty := headers[0].Height % 2016`,
`endDifficulty := headers[len-1].Height % 2016`, then the three-way branch
of `pushHeadersToChain`, translated directly from the source. -/
def classifyBatch (first last : Header) : EpochClass :=
  let startDifficulty := first.height.tmod difficultyEpochDuration
  let endDifficulty := last.height.tmod difficultyEpochDuration
  if startDifficulty = 0 then EpochClass.boundaryFirst
  else if startDifficulty > endDifficulty then EpochClass.boundarySpanning
  else EpochClass.singleEpoch

/-- Whether a header sits exactly at a difficulty-epoch boundary. -/
def atBoundary (h : Header) : Bool :=
  h.height.tmod difficultyEpochDuration = 0

/-- Modelled from the spec: the host-chain submission plan of the push
phase.  The three branch bodies in `pushHeadersToChain` are TODO
placeholders in the source; spec 4.3 specifies that a boundary-spanning
batch is split into two sub-submissions at the epoch boundary (the second
starting at the header whose epoch-relative position is 0) while the other
two classes are submitted as one contiguous unit. -/
def submissionPlan (headers : List Header) : List (List Header) :=
  match headers with
  | [] => []
  | h0 :: rest =>
    let last := (h0 :: rest).getLast (List.cons_ne_nil h0 rest)
    match classifyBatch h0 last with
    | EpochClass.boundarySpanning =>
        [(h0 :: rest).takeWhile (fun h => !(atBoundary h)),
         (h0 :: rest).dropWhile (fun h => !(atBoundary h))]
    | _ => [h0 :: rest]

/-- An observable call against the host chain handle (spec 6). -/
inductive HostAction where
  | submitHeaders (batch : List Header)
  | setBestKnownDigest (d : Digest)
deriving Repr, DecidableEq

/-- `pushHeadersToChain`, translated from forwarder.go lines 150-175.
Returns the updated forwarder state together with the host-chain calls the
push performs.  The early return on an empty batch, the classification, the
`processedHeaders` increment, the `>= headersBatchSize` threshold test and
the reset to 0 are from the source; the host-chain calls themselves
(submissions per `submissionPlan`, and `updateBestHeader` committing the
last header's digest) are modelled from the spec since their bodies are
TODO placeholders. -/
def pushHeadersToChain (f : Forwarder) (headers : List Header) :
    Forwarder × List HostAction :=
  match headers with
  | [] => (f, [])
  | h0 :: rest =>
    let subs := (submissionPlan (h0 :: rest)).map HostAction.submitHeaders
    let processed := f.processedHeaders + ((h0 :: rest).length : Int)
    if (headersBatchSize : Int) ≤ processed then
      let newBestHeader := (h0 :: rest).getLast (List.cons_ne_nil h0 rest)
      ({ processedHeaders := 0, bestKnownDigest := some newBestHeader.hash },
       subs ++ [HostAction.setBestKnownDigest newBestHeader.hash])
    else
      ({ f with processedHeaders := processed }, subs)

/-- A scheduler event observed by the `select` inside
`pullHeadersFromQueue`: a header is ready on the queue channel, the
1-second idle timer fires, or the context is cancelled. -/
inductive PullEvent where
  | headerReady
  | timerFired
  | cancelled
deriving Repr, DecidableEq

/-- `pullHeadersFromQueue`, translated from forwarder.go lines 105-148.
`headers` is the accumulator (initially empty), `queue` the contents of the
headers channel, `events` the sequence of `select` outcomes the scheduler
delivers.  Returns `some (batch, remainingQueue)` when the function
returns, `none` when the event list is exhausted while the function is
still blocked waiting.  A `headerReady` event with an empty queue cannot
fire in Go (the channel case is not ready) and is skipped.  A `timerFired`
event with a non-empty accumulator returns the partial batch; with an
empty accumulator the timer is reset and waiting continues.  `cancelled`
returns whatever has been accumulated.  The loop runs only while fewer
than `headersBatchSize` headers are accumulated. -/
def pullHeadersFromQueue :
    List Header → List Header → List PullEvent →
    Option (List Header × List Header)
  | headers, queue, [] =>
    if headersBatchSize ≤ headers.length then some (headers, queue) else none
  | headers, queue, PullEvent.cancelled :: _ => some (headers, queue)
  | headers, queue, PullEvent.timerFired :: rest =>
    if headersBatchSize ≤ headers.length then some (headers, queue)
    else if headers.isEmpty then pullHeadersFromQueue headers queue rest
    else some (headers, queue)
  | headers, [], PullEvent.headerReady :: rest =>
    if headersBatchSize ≤ headers.length then some (headers, [])
    else pullHeadersFromQueue headers [] rest
  | headers, h :: q, PullEvent.headerReady :: rest =>
    if headersBatchSize ≤ headers.length then some (headers, h :: q)
    else pullHeadersFromQueue (headers ++ [h]) q rest

/-- Why the orchestration loop stopped (spec 4.4). -/
inductive StopReason where
  | cancelled
  | errored
deriving Repr, DecidableEq

/-- An observable action of one loop iteration: a host-chain call, a write
to the error channel, or the 45-second rate-limiting sleep (completed in
full, or cut short by cancellation). -/
inductive LoopAction where
  | host (a : HostAction)
  | writeErr (e : String)
  | sleepFull
  | sleepInterrupted
deriving Repr, DecidableEq

/-- The scheduler environment of one iteration of `loop` (forwarder.go
lines 65-100): whether `ctx.Done()` is already closed at the top-of-loop
`select`, the `select` outcomes delivered to the pull phase, the outcome
of the push phase's host-chain submissions (modelled from the spec: the
source submission bodies are TODO placeholders, and spec 4.3/4.4 make any
submission error fatal), and whether cancellation fires during the
rate-limiting sleep. -/
structure IterEnv where
  cancelledAtTop : Bool
  pullEvents : List PullEvent
  pushError : Option String
  cancelDuringSleep : Bool
deriving Repr, DecidableEq

/-- Loop-visible state: the forwarder's private fields, the contents of
the headers queue channel, and the values written so far to the capacity-1
error channel. -/
structure LoopState where
  forwarder : Forwarder
  queue : List Header
  errors : List String
deriving Repr, DecidableEq

/-- Outcome of one loop iteration. -/
inductive IterResult where
  | stopped (r : StopReason)
  | continued
  | blocked
deriving Repr, DecidableEq

/-- One iteration of `loop` (forwarder.go lines 68-98).  Top-of-loop
`select` on `ctx.Done()` first; otherwise pull a batch; an empty batch
`continue`s with no sleep; a non-empty batch is pushed and, on success,
the 45-second sleep runs (cut short when cancellation fires during it).
The error path is modelled from the spec (4.4, 7): a push error is written
once to the error channel and the loop returns without further
iterations. -/
def loopIteration (s : LoopState) (env : IterEnv) :
    LoopState × List LoopAction × IterResult :=
  if env.cancelledAtTop then
    (s, [], IterResult.stopped StopReason.cancelled)
  else
    match pullHeadersFromQueue [] s.queue env.pullEvents with
    | none => (s, [], IterResult.blocked)
    | some (batch, queueRest) =>
      if batch.isEmpty then
        ({ s with queue := queueRest }, [], IterResult.continued)
      else
        match env.pushError with
        | some e =>
          ({ s with queue := queueRest, errors := s.errors ++ [e] },
           [LoopAction.writeErr e], IterResult.stopped StopReason.errored)
        | none =>
          ({ forwarder := (pushHeadersToChain s.forwarder batch).1,
             queue := queueRest, errors := s.errors },
           ((pushHeadersToChain s.forwarder batch).2.map LoopAction.host) ++
             [if env.cancelDuringSleep then LoopAction.sleepInterrupted
              else LoopAction.sleepFull],
           IterResult.continued)

/-- Run the orchestration loop over a sequence of iteration environments,
stopping at the first iteration that stops (or blocks).  Returns the final
state, the concatenated action trace, and the stop reason (`none` when the
environments are exhausted or the loop blocked). -/
def loopRun (s : LoopState) (envs : List IterEnv) :
    LoopState × List LoopAction × Option StopReason :=
  match envs with
  | [] => (s, [], none)
  | env :: rest =>
    match loopIteration s env with
    | (s1, acts, IterResult.continued) =>
      match loopRun s1 rest with
      | (s2, acts2, r) => (s2, acts ++ acts2, r)
    | (s1, acts, IterResult.stopped r) => (s1, acts, some r)
    | (s1, acts, IterResult.blocked) => (s1, acts, none)

/-- Once the accumulator is full, the pull phase returns it at once,
whatever events remain. -/
theorem pull_of_full (headers queue : List Header) (events : List PullEvent)
    (h : headersBatchSize ≤ headers.length) :
    pullHeadersFromQueue headers queue events = some (headers, queue) := by
  cases events with
  | nil => simp [pullHeadersFromQueue, h]
  | cons e rest =>
    cases e with
    | headerReady => cases queue <;> simp [pullHeadersFromQueue, h]
    | timerFired => simp [pullHeadersFromQueue, h]
    | cancelled => simp [pullHeadersFromQueue]

/-- A cancellation event makes the pull phase return the headers
accumulated so far, with the queue untouched from that moment. -/
theorem pull_cancel_helper (headers queue : List Header)
    (rest : List PullEvent) :
    pullHeadersFromQueue headers queue (PullEvent.cancelled :: rest) =
      some (headers, queue) := by
  simp [pullHeadersFromQueue]

/-- The idle timer firing over a non-empty accumulator returns the partial
batch at once. -/
theorem pull_timer_nonempty_helper (headers queue : List Header)
    (rest : List PullEvent) (h : ¬ headers = []) :
    pullHeadersFromQueue headers queue (PullEvent.timerFired :: rest) =
      some (headers, queue) := by
  by_cases hfull : headersBatchSize ≤ headers.length
  · simp [pullHeadersFromQueue, hfull]
  · simp [pullHeadersFromQueue, hfull, List.isEmpty_iff, h]

/-- The idle timer firing over an empty accumulator restarts the wait. -/
theorem pull_timer_empty_helper (queue : List Header)
    (rest : List PullEvent) :
    pullHeadersFromQueue [] queue (PullEvent.timerFired :: rest) =
      pullHeadersFromQueue [] queue rest := by
  simp [pullHeadersFromQueue, headersBatchSize]

/-- The pull phase never returns more than `headersBatchSize` headers,
for any accumulator within the bound. -/
theorem pull_length_le (events : List PullEvent) :
    ∀ (acc queue : List Header), acc.length ≤ headersBatchSize →
    ∀ b q2, pullHeadersFromQueue acc queue events = some (b, q2) →
      b.length ≤ headersBatchSize := by
  induction events with
  | nil =>
    intro acc queue hacc b q2 h
    simp only [pullHeadersFromQueue] at h
    by_cases hfull : headersBatchSize ≤ acc.length
    · simp only [hfull, if_true, Option.some.injEq, Prod.mk.injEq] at h
      obtain ⟨rfl, rfl⟩ := h
      exact hacc
    · simp [hfull] at h
  | cons e rest ih =>
    intro acc queue hacc b q2 h
    cases e with
    | headerReady =>
      cases queue with
      | nil =>
        simp only [pullHeadersFromQueue] at h
        by_cases hfull : headersBatchSize ≤ acc.length
        · simp only [hfull, if_true, Option.some.injEq, Prod.mk.injEq] at h
          obtain ⟨rfl, rfl⟩ := h
          exact hacc
        · simp only [hfull, if_false] at h
          exact ih acc [] hacc b q2 h
      | cons hd q =>
        simp only [pullHeadersFromQueue] at h
        by_cases hfull : headersBatchSize ≤ acc.length
        · simp only [hfull, if_true, Option.some.injEq, Prod.mk.injEq] at h
          obtain ⟨rfl, rfl⟩ := h
          exact hacc
        · simp only [hfull, if_false] at h
          have hlen : (acc ++ [hd]).length ≤ headersBatchSize := by
            simp only [List.length_append, List.length_singleton]
            omega
          exact ih (acc ++ [hd]) q hlen b q2 h
    | timerFired =>
      simp only [pullHeadersFromQueue] at h
      by_cases hfull : headersBatchSize ≤ acc.length
      · simp only [hfull, if_true, Option.some.injEq, Prod.mk.injEq] at h
        obtain ⟨rfl, rfl⟩ := h
        exact hacc
      · simp only [hfull, if_false] at h
        by_cases he : acc.isEmpty
        · simp only [he, if_true] at h
          exact ih acc queue hacc b q2 h
        · simp only [he, if_false, Option.some.injEq, Prod.mk.injEq] at h
          obtain ⟨rfl, rfl⟩ := h
          exact hacc
    | cancelled =>
      simp only [pullHeadersFromQueue, Option.some.injEq, Prod.mk.injEq] at h
      obtain ⟨rfl, rfl⟩ := h
      exact hacc

/-- Characterization of the three-way branch of `pushHeadersToChain` in
terms of the epoch-relative positions of the first and last headers. -/
theorem classify_characterization (first last : Header) :
    (classifyBatch first last = EpochClass.boundaryFirst ↔
      first.height.tmod difficultyEpochDuration = 0) ∧
    (classifyBatch first last = EpochClass.boundarySpanning ↔
      (¬ first.height.tmod difficultyEpochDuration = 0 ∧
        last.height.tmod difficultyEpochDuration <
          first.height.tmod difficultyEpochDuration)) ∧
    (classifyBatch first last = EpochClass.singleEpoch ↔
      (¬ first.height.tmod difficultyEpochDuration = 0 ∧
        first.height.tmod difficultyEpochDuration ≤
          last.height.tmod difficultyEpochDuration)) := by
  unfold classifyBatch
  dsimp only
  split_ifs with h1 h2 <;> simp_all

/-- A boundary-spanning batch is planned as the two-way split at the
epoch boundary. -/
theorem plan_spanning (h0 : Header) (rest : List Header)
    (h : classifyBatch h0 ((h0 :: rest).getLast (List.cons_ne_nil h0 rest)) =
      EpochClass.boundarySpanning) :
    submissionPlan (h0 :: rest) =
      [(h0 :: rest).takeWhile (fun h => !(atBoundary h)),
       (h0 :: rest).dropWhile (fun h => !(atBoundary h))] := by
  unfold submissionPlan
  simp only [h]

/-- A batch that does not span a boundary is planned as one unit. -/
theorem plan_not_spanning (h0 : Header) (rest : List Header)
    (h : ¬ classifyBatch h0 ((h0 :: rest).getLast (List.cons_ne_nil h0 rest)) =
      EpochClass.boundarySpanning) :
    submissionPlan (h0 :: rest) = [h0 :: rest] := by
  unfold submissionPlan
  rcases hc : classifyBatch h0 ((h0 :: rest).getLast (List.cons_ne_nil h0 rest))
    with _ | _ | _
  · simp [hc]
  · exact absurd hc h
  · simp [hc]

/-- Every header of the first sub-submission lies strictly inside its
epoch. -/
theorem take_not_boundary (hs : List Header) :
    ∀ x ∈ hs.takeWhile (fun h => !(atBoundary h)),
      ¬ x.height.tmod difficultyEpochDuration = 0 := by
  intro x hx
  have := List.mem_takeWhile_imp hx
  simpa [atBoundary] using this

/-- The second sub-submission, when non-empty, starts exactly at the
epoch boundary. -/
theorem drop_head_boundary (hs : List Header) (x : Header)
    (hx : (hs.dropWhile (fun h => !(atBoundary h))).head? = some x) :
    x.height.tmod difficultyEpochDuration = 0 := by
  have h2 := List.head?_dropWhile_not (fun h => !(atBoundary h)) hs
  rw [hx] at h2
  simpa [atBoundary] using h2

/-- The host-chain calls of a push are the planned submissions, followed
by the best-digest commit exactly when the threshold is crossed. -/
theorem push_actions_shape (f : Forwarder) (h0 : Header)
    (rest : List Header) :
    (pushHeadersToChain f (h0 :: rest)).2 =
        (submissionPlan (h0 :: rest)).map HostAction.submitHeaders ∨
    (pushHeadersToChain f (h0 :: rest)).2 =
        (submissionPlan (h0 :: rest)).map HostAction.submitHeaders ++
          [HostAction.setBestKnownDigest
            (((h0 :: rest).getLast (List.cons_ne_nil h0 rest)).hash)] := by
  unfold pushHeadersToChain
  dsimp only
  split
  · right
    rfl
  · left
    rfl

/-- Every sub-submission of the plan only carries headers of the batch. -/
theorem plan_mem_subset (hs b : List Header) (hb : b ∈ submissionPlan hs) :
    ∀ x ∈ b, x ∈ hs := by
  cases hs with
  | nil => simp [submissionPlan] at hb
  | cons h0 rest =>
    unfold submissionPlan at hb
    dsimp only at hb
    rcases hc : classifyBatch h0 ((h0 :: rest).getLast (List.cons_ne_nil h0 rest))
      with _ | _ | _ <;> simp only [hc] at hb
    · simp only [List.mem_singleton] at hb
      subst hb
      exact fun x hx => hx
    · simp only [List.mem_cons, List.mem_singleton, List.not_mem_nil,
        or_false] at hb
      rcases hb with rfl | rfl
      · exact fun x hx => List.takeWhile_subset _ hx
      · exact fun x hx => List.dropWhile_subset _ hx
    · simp only [List.mem_singleton] at hb
      subst hb
      exact fun x hx => hx

/-- A submission performed by a push is one of the planned
sub-submissions. -/
theorem push_submit_mem (f : Forwarder) (h0 : Header) (rest : List Header)
    (b : List Header)
    (hb : HostAction.submitHeaders b ∈ (pushHeadersToChain f (h0 :: rest)).2) :
    b ∈ submissionPlan (h0 :: rest) := by
  rcases push_actions_shape f h0 rest with hsh | hsh <;> rw [hsh] at hb
  · rcases List.mem_map.mp hb with ⟨c, hc, he⟩
    cases he
    exact hc
  · rcases List.mem_append.mp hb with hm | hm
    · rcases List.mem_map.mp hm with ⟨c, hc, he⟩
      cases he
      exact hc
    · simp at hm

/-- One loop iteration either leaves the error channel untouched, or
writes exactly one value and stops the loop with an error. -/
theorem iter_errors (s : LoopState) (env : IterEnv) :
    ((loopIteration s env).1.errors = s.errors ∧
      ¬ (loopIteration s env).2.2 = IterResult.stopped StopReason.errored) ∨
    (∃ e, env.pushError = some e ∧
      (loopIteration s env).1.errors = s.errors ++ [e] ∧
      (loopIteration s env).2.2 = IterResult.stopped StopReason.errored) := by
  unfold loopIteration
  by_cases hc : env.cancelledAtTop
  · simp [hc]
  · simp only [hc, if_false]
    rcases hp : pullHeadersFromQueue [] s.queue env.pullEvents with _ | ⟨b, q2⟩
    · simp
    · dsimp only
      by_cases hb : b.isEmpty
      · simp [hb]
      · simp only [hb, if_false]
        rcases he : env.pushError with _ | e
        · simp
        · right
          exact ⟨e, rfl, rfl, rfl⟩

/-- Over a whole run of the loop started with an empty error channel, at
most one error is ever written, and a non-empty error channel means the
run stopped with the error reason. -/
theorem loopRun_errors (envs : List IterEnv) :
    ∀ s : LoopState, s.errors = [] →
      (loopRun s envs).1.errors.length ≤ 1 ∧
      (¬ (loopRun s envs).1.errors = [] →
        (loopRun s envs).2.2 = some StopReason.errored) := by
  induction envs with
  | nil =>
    intro s h
    refine ⟨by simp [loopRun, h], ?_⟩
    intro hne
    exact absurd (by simp [loopRun, h]) hne
  | cons env rest ih =>
    intro s h
    rcases hi : loopIteration s env with ⟨s1, acts, res⟩
    cases res with
    | continued =>
      have hiter := iter_errors s env
      rw [hi] at hiter
      dsimp only at hiter
      rcases hiter with ⟨he1, _⟩ | ⟨e, _, _, hres⟩
      · have hs1 : s1.errors = [] := by rw [he1, h]
        have := ih s1 hs1
        rcases hr : loopRun s1 rest with ⟨s2, acts2, r⟩
        rw [hr] at this
        simp only [loopRun, hi, hr]
        exact this
      · simp at hres
    | stopped r =>
      have hiter := iter_errors s env
      rw [hi] at hiter
      dsimp only at hiter
      simp only [loopRun, hi]
      rcases hiter with ⟨he1, hne⟩ | ⟨e, _, he1, hres⟩
      · refine ⟨by simp [he1, h], ?_⟩
        intro hcon
        exact absurd (by rw [he1, h]) hcon
      · have hr : r = StopReason.errored := by
          cases hres
          rfl
        subst hr
        refine ⟨by simp [he1, h], fun _ => rfl⟩
    | blocked =>
      have hiter := iter_errors s env
      rw [hi] at hiter
      dsimp only at hiter
      simp only [loopRun, hi]
      rcases hiter with ⟨he1, _⟩ | ⟨e, _, _, hres⟩
      · refine ⟨by simp [he1, h], ?_⟩
        intro hcon
        exact absurd (by rw [he1, h]) hcon
      · simp at hres

/-- A concrete header just below an epoch boundary. -/
def hdrSpanLow : Header := { height := 2015, hash := [10], prevHash := [9] }

/-- A concrete header exactly at an epoch boundary. -/
def hdrSpanHigh : Header := { height := 2016, hash := [11], prevHash := [10] }

/-- Concrete low-height headers for witnesses. -/
def hdrOne : Header := { height := 1, hash := [1], prevHash := [0] }

def hdrTwo : Header := { height := 2, hash := [2], prevHash := [1] }

def hdrThree : Header := { height := 3, hash := [3], prevHash := [2] }

def hdrFour : Header := { height := 4, hash := [4], prevHash := [3] }

def hdrFive : Header := { height := 5, hash := [5], prevHash := [4] }

def hdrSix : Header := { height := 6, hash := [6], prevHash := [5] }

def hdrSeven : Header := { height := 7, hash := [7], prevHash := [6] }

/-- C10: calling `pushHeadersToChain` with an empty batch is a complete
no-op: it returns at once with no classification, no host-chain call, no
best-header update, and the forwarder state unchanged. -/
theorem pushEmptyBatchNoOp (f : Forwarder) :
    pushHeadersToChain f [] = (f, []) := rfl

/-- C9: `processedHeaders` starts at 0 when the forwarder is created, and
every completed `pushHeadersToChain` call leaves it with
`0 ≤ processedHeaders < 5`. -/
theorem processedHeadersInvariant :
    RunForwarder.processedHeaders = 0 ∧
    ∀ (f : Forwarder) (hs : List Header),
      0 ≤ f.processedHeaders → f.processedHeaders < (headersBatchSize : Int) →
      0 ≤ (pushHeadersToChain f hs).1.processedHeaders ∧
      (pushHeadersToChain f hs).1.processedHeaders < (headersBatchSize : Int) := by
  refine ⟨rfl, ?_⟩
  intro f hs h0 h5
  cases hs with
  | nil => exact ⟨h0, h5⟩
  | cons hd tl =>
    unfold pushHeadersToChain
    dsimp only
    split
    next hth =>
      refine ⟨le_refl 0, ?_⟩
      norm_num [headersBatchSize]
    next hth =>
      simp only [headersBatchSize] at *
      constructor <;> omega

/-- Witness for C9 at a concrete forwarder state and batch. -/
theorem processedHeadersInvariant_witness :
    0 ≤ (pushHeadersToChain { processedHeaders := 4, bestKnownDigest := none }
        [hdrFive]).1.processedHeaders ∧
    (pushHeadersToChain { processedHeaders := 4, bestKnownDigest := none }
        [hdrFive]).1.processedHeaders < (headersBatchSize : Int) :=
  processedHeadersInvariant.2 { processedHeaders := 4, bestKnownDigest := none }
    [hdrFive] (by decide) (by decide)

/-- C6: a cancellation event makes the pull phase return exactly the
headers accumulated so far in this pull phase (possibly none), ignoring
any further queue or timer events, with the queue untouched. -/
theorem pullCancellationPolicy (headers queue : List Header)
    (rest : List PullEvent) :
    pullHeadersFromQueue headers queue (PullEvent.cancelled :: rest) =
      some (headers, queue) :=
  pull_cancel_helper headers queue rest

/-- C5: when the idle timer fires with a non-empty accumulated batch, that
partial batch is returned at once; with an empty batch the timer is
restarted and the phase keeps waiting on the remaining events. -/
theorem pullIdleTimerPolicy (headers queue : List Header)
    (rest : List PullEvent) :
    (¬ headers = [] →
      pullHeadersFromQueue headers queue (PullEvent.timerFired :: rest) =
        some (headers, queue)) ∧
    (headers = [] →
      pullHeadersFromQueue headers queue (PullEvent.timerFired :: rest) =
        pullHeadersFromQueue headers queue rest) := by
  constructor
  · exact pull_timer_nonempty_helper headers queue rest
  · intro h
    subst h
    exact pull_timer_empty_helper queue rest

/-- Witness for C5: two accumulated headers are returned on an idle-timer
fire, and an empty accumulator keeps waiting. -/
theorem pullIdleTimerPolicy_witness :
    (pullHeadersFromQueue [hdrOne, hdrTwo] [] [PullEvent.timerFired] =
      some ([hdrOne, hdrTwo], [])) ∧
    (pullHeadersFromQueue [] [] [PullEvent.timerFired] =
      pullHeadersFromQueue [] [] []) :=
  ⟨(pullIdleTimerPolicy [hdrOne, hdrTwo] [] []).1 (by decide),
   (pullIdleTimerPolicy [] [] []).2 rfl⟩

/-- C4: a full accumulator is returned at once whatever events remain;
receiving the 5th header returns the full batch immediately without
waiting on the idle timer, further arrivals or cancellation; and a pull
phase started empty never returns more than 5 headers. -/
theorem pullBatchLimit :
    (∀ (headers queue : List Header) (events : List PullEvent),
      headersBatchSize ≤ headers.length →
      pullHeadersFromQueue headers queue events = some (headers, queue)) ∧
    (∀ (acc : List Header) (h : Header) (q : List Header)
        (rest : List PullEvent),
      acc.length + 1 = headersBatchSize →
      pullHeadersFromQueue acc (h :: q) (PullEvent.headerReady :: rest) =
        some (acc ++ [h], q)) ∧
    (∀ (queue : List Header) (events : List PullEvent) (b q2 : List Header),
      pullHeadersFromQueue [] queue events = some (b, q2) →
      b.length ≤ headersBatchSize) := by
  refine ⟨pull_of_full, ?_, ?_⟩
  · intro acc h q rest hlen
    have hnf : ¬ headersBatchSize ≤ acc.length := by omega
    have hfull : headersBatchSize ≤ (acc ++ [h]).length := by
      simp only [List.length_append, List.length_singleton]
      omega
    simp only [pullHeadersFromQueue, hnf, if_false]
    exact pull_of_full (acc ++ [h]) q rest hfull
  · intro queue events b q2 hp
    exact pull_length_le events [] queue (Nat.zero_le _) b q2 hp

/-- Witness for C4: the 5th header returns the batch at once with events
still pending, and a concrete pull returns at most 5 headers. -/
theorem pullBatchLimit_witness :
    (pullHeadersFromQueue [hdrOne, hdrTwo, hdrThree, hdrFour]
        [hdrFive, hdrSix] [PullEvent.headerReady, PullEvent.cancelled] =
      some ([hdrOne, hdrTwo, hdrThree, hdrFour, hdrFive], [hdrSix])) ∧
    ([hdrOne, hdrTwo] : List Header).length ≤ headersBatchSize :=
  ⟨pullBatchLimit.2.1 [hdrOne, hdrTwo, hdrThree, hdrFour] hdrFive [hdrSix]
      [PullEvent.cancelled] (by decide),
   pullBatchLimit.2.2 [hdrOne, hdrTwo]
      [PullEvent.headerReady, PullEvent.headerReady, PullEvent.cancelled]
      [hdrOne, hdrTwo] [] (by decide)⟩

/-- C3: after every push of a non-empty batch of n headers,
`processedHeaders` becomes the old value plus n, except that when that sum
reaches the threshold 5 the best-known digest is set to the last pushed
header's digest (with the corresponding host-chain call emitted) and
`processedHeaders` is reset to 0; below the threshold the best-known
digest is untouched and no best-digest call is made. -/
theorem pushBookkeeping (f : Forwarder) (h0 : Header) (rest : List Header) :
    ((pushHeadersToChain f (h0 :: rest)).1.processedHeaders =
      (if (headersBatchSize : Int) ≤
            f.processedHeaders + ((h0 :: rest).length : Int)
        then 0
        else f.processedHeaders + ((h0 :: rest).length : Int))) ∧
    ((headersBatchSize : Int) ≤
        f.processedHeaders + ((h0 :: rest).length : Int) →
      (pushHeadersToChain f (h0 :: rest)).1.bestKnownDigest =
        some (((h0 :: rest).getLast (List.cons_ne_nil h0 rest)).hash) ∧
      HostAction.setBestKnownDigest
          (((h0 :: rest).getLast (List.cons_ne_nil h0 rest)).hash) ∈
        (pushHeadersToChain f (h0 :: rest)).2) ∧
    (¬ (headersBatchSize : Int) ≤
        f.processedHeaders + ((h0 :: rest).length : Int) →
      (pushHeadersToChain f (h0 :: rest)).1.bestKnownDigest =
        f.bestKnownDigest ∧
      ∀ d, ¬ HostAction.setBestKnownDigest d ∈
        (pushHeadersToChain f (h0 :: rest)).2) := by
  have key : pushHeadersToChain f (h0 :: rest) =
      if (headersBatchSize : Int) ≤
          f.processedHeaders + ((h0 :: rest).length : Int) then
        ({ processedHeaders := 0,
           bestKnownDigest :=
             some (((h0 :: rest).getLast (List.cons_ne_nil h0 rest)).hash) },
         (submissionPlan (h0 :: rest)).map HostAction.submitHeaders ++
           [HostAction.setBestKnownDigest
             (((h0 :: rest).getLast (List.cons_ne_nil h0 rest)).hash)])
      else
        ({ f with processedHeaders :=
             f.processedHeaders + ((h0 :: rest).length : Int) },
         (submissionPlan (h0 :: rest)).map HostAction.submitHeaders) := rfl
  rw [key]
  by_cases hth : (headersBatchSize : Int) ≤
      f.processedHeaders + ((h0 :: rest).length : Int)
  · simp only [if_pos hth]
    refine ⟨by trivial, fun _ => ⟨by trivial, ?_⟩, fun hcon => absurd hth hcon⟩
    exact List.mem_append.mpr (Or.inr (List.mem_singleton.mpr rfl))
  · simp only [if_neg hth]
    refine ⟨by trivial, fun hcon => absurd hcon hth, fun _ => ⟨by trivial, ?_⟩⟩
    intro d hd
    rcases List.mem_map.mp hd with ⟨c, _, he⟩
    exact HostAction.noConfusion he

/-- Witness for C3: pushing one header onto a forwarder with 4 already
processed crosses the threshold and commits the header's digest. -/
theorem pushBookkeeping_witness :
    (pushHeadersToChain { processedHeaders := 4, bestKnownDigest := none }
        [hdrFive]).1.bestKnownDigest = some hdrFive.hash ∧
    HostAction.setBestKnownDigest hdrFive.hash ∈
      (pushHeadersToChain { processedHeaders := 4, bestKnownDigest := none }
        [hdrFive]).2 :=
  (pushBookkeeping { processedHeaders := 4, bestKnownDigest := none }
    hdrFive []).2.1 (by decide)

/-- C1: for every non-empty batch, the push phase classifies from
`startHeight mod 2016` versus `endHeight mod 2016` before any host-chain
call: boundary-first exactly when the first header's height is 0 mod 2016,
otherwise boundary-spanning exactly when the first header's epoch-relative
position exceeds the last header's, otherwise single-epoch; the host-chain
calls of a push are exactly the planned submissions (plus the best-digest
commit); a boundary-spanning batch is planned as two sub-submissions split
at the epoch boundary, never as a single unit, while any other batch is
planned as one unit. -/
theorem pushEpochClassification (f : Forwarder) (h0 : Header)
    (rest : List Header) :
    (classifyBatch h0 ((h0 :: rest).getLast (List.cons_ne_nil h0 rest)) =
        EpochClass.boundaryFirst ↔
      h0.height.tmod difficultyEpochDuration = 0) ∧
    (classifyBatch h0 ((h0 :: rest).getLast (List.cons_ne_nil h0 rest)) =
        EpochClass.boundarySpanning ↔
      (¬ h0.height.tmod difficultyEpochDuration = 0 ∧
        ((h0 :: rest).getLast (List.cons_ne_nil h0 rest)).height.tmod
            difficultyEpochDuration <
          h0.height.tmod difficultyEpochDuration)) ∧
    (classifyBatch h0 ((h0 :: rest).getLast (List.cons_ne_nil h0 rest)) =
        EpochClass.singleEpoch ↔
      (¬ h0.height.tmod difficultyEpochDuration = 0 ∧
        h0.height.tmod difficultyEpochDuration ≤
          ((h0 :: rest).getLast (List.cons_ne_nil h0 rest)).height.tmod
            difficultyEpochDuration)) ∧
    ((pushHeadersToChain f (h0 :: rest)).2 =
        (submissionPlan (h0 :: rest)).map HostAction.submitHeaders ∨
      (pushHeadersToChain f (h0 :: rest)).2 =
        (submissionPlan (h0 :: rest)).map HostAction.submitHeaders ++
          [HostAction.setBestKnownDigest
            (((h0 :: rest).getLast (List.cons_ne_nil h0 rest)).hash)]) ∧
    (classifyBatch h0 ((h0 :: rest).getLast (List.cons_ne_nil h0 rest)) =
        EpochClass.boundarySpanning →
      ∃ t d, submissionPlan (h0 :: rest) = [t, d] ∧ t ++ d = h0 :: rest ∧
        (∀ x ∈ t, ¬ x.height.tmod difficultyEpochDuration = 0) ∧
        (∀ x, d.head? = some x →
          x.height.tmod difficultyEpochDuration = 0)) ∧
    (¬ classifyBatch h0 ((h0 :: rest).getLast (List.cons_ne_nil h0 rest)) =
        EpochClass.boundarySpanning →
      submissionPlan (h0 :: rest) = [h0 :: rest]) := by
  obtain ⟨c1, c2, c3⟩ := classify_characterization h0
    ((h0 :: rest).getLast (List.cons_ne_nil h0 rest))
  refine ⟨c1, c2, c3, push_actions_shape f h0 rest, ?_,
    plan_not_spanning h0 rest⟩
  intro hsp
  exact ⟨_, _, plan_spanning h0 rest hsp,
    List.takeWhile_append_dropWhile _ _,
    take_not_boundary _, fun x hx => drop_head_boundary _ x hx⟩

/-- Witness for C1 at a concrete boundary-spanning batch of heights
2015 and 2016. -/
theorem pushEpochClassification_witness :
    ∃ t d, submissionPlan [hdrSpanLow, hdrSpanHigh] = [t, d] ∧
      t ++ d = [hdrSpanLow, hdrSpanHigh] ∧
      (∀ x ∈ t, ¬ x.height.tmod difficultyEpochDuration = 0) ∧
      (∀ x, d.head? = some x → x.height.tmod difficultyEpochDuration = 0) :=
  (pushEpochClassification RunForwarder hdrSpanLow [hdrSpanHigh]).2.2.2.2.1
    (by decide)

/-- C2: starting from an empty error channel, at most one error is ever
written over the whole run; an error on the channel means the run stopped
with the error reason (no further iterations); and an iteration whose
push phase reports an error writes exactly that one error and stops. -/
theorem errorChannelAtMostOnce (s : LoopState) (envs : List IterEnv)
    (h : s.errors = []) :
    ((loopRun s envs).1.errors.length ≤ 1) ∧
    (¬ (loopRun s envs).1.errors = [] →
      (loopRun s envs).2.2 = some StopReason.errored) ∧
    (∀ (env : IterEnv) (e : String) (batch q2 : List Header),
      env.cancelledAtTop = false →
      pullHeadersFromQueue [] s.queue env.pullEvents = some (batch, q2) →
      ¬ batch = [] → env.pushError = some e →
      (loopIteration s env).1.errors = [e] ∧
      (loopIteration s env).2.2 = IterResult.stopped StopReason.errored) := by
  obtain ⟨h1, h2⟩ := loopRun_errors envs s h
  refine ⟨h1, h2, ?_⟩
  intro env e batch q2 hc hp hb he
  unfold loopIteration
  simp [hc, hp, List.isEmpty_iff, hb, he, h]

/-- Witness for C2: a concrete run whose only iteration fails its push
writes one error and stops with the error reason. -/
theorem errorChannelAtMostOnce_witness :
    ((loopRun { forwarder := RunForwarder, queue := [hdrOne], errors := [] }
        [{ cancelledAtTop := false,
           pullEvents := [PullEvent.headerReady, PullEvent.timerFired],
           pushError := some "could not push headers",
           cancelDuringSleep := false }]).1.errors.length ≤ 1) :=
  (errorChannelAtMostOnce
    { forwarder := RunForwarder, queue := [hdrOne], errors := [] }
    [{ cancelledAtTop := false,
       pullEvents := [PullEvent.headerReady, PullEvent.timerFired],
       pushError := some "could not push headers",
       cancelDuringSleep := false }] rfl).1

/-- C7: in an iteration not cancelled at the top, an empty pulled batch
makes the loop continue at once with no host-chain action and no sleep; a
non-empty batch whose push succeeds ends with the 45-second sleep (cut
short exactly when cancellation fires during it) and continues; a
non-empty batch whose push errors stops the loop with no sleep at all. -/
theorem loopIterationPolicy (s : LoopState) (env : IterEnv)
    (hc : env.cancelledAtTop = false) :
    (∀ q2, pullHeadersFromQueue [] s.queue env.pullEvents = some ([], q2) →
      loopIteration s env =
        ({ s with queue := q2 }, [], IterResult.continued)) ∧
    (∀ batch q2,
      pullHeadersFromQueue [] s.queue env.pullEvents = some (batch, q2) →
      ¬ batch = [] → env.pushError = none →
      loopIteration s env =
        ({ forwarder := (pushHeadersToChain s.forwarder batch).1,
           queue := q2, errors := s.errors },
         ((pushHeadersToChain s.forwarder batch).2.map LoopAction.host) ++
           [if env.cancelDuringSleep then LoopAction.sleepInterrupted
            else LoopAction.sleepFull],
         IterResult.continued)) ∧
    (∀ batch q2 e,
      pullHeadersFromQueue [] s.queue env.pullEvents = some (batch, q2) →
      ¬ batch = [] → env.pushError = some e →
      loopIteration s env =
        ({ s with queue := q2, errors := s.errors ++ [e] },
         [LoopAction.writeErr e], IterResult.stopped StopReason.errored) ∧
      ¬ LoopAction.sleepFull ∈ (loopIteration s env).2.1 ∧
      ¬ LoopAction.sleepInterrupted ∈ (loopIteration s env).2.1) := by
  refine ⟨?_, ?_, ?_⟩
  · intro q2 hp
    unfold loopIteration
    simp [hc, hp]
  · intro batch q2 hp hb he
    unfold loopIteration
    simp [hc, hp, List.isEmpty_iff, hb, he]
  · intro batch q2 e hp hb he
    refine ⟨?_, ?_, ?_⟩ <;>
      · unfold loopIteration
        simp [hc, hp, List.isEmpty_iff, hb, he]

/-- Witness for C7: an iteration whose pull is cancelled while empty
continues at once with no actions. -/
theorem loopIterationPolicy_witness :
    loopIteration { forwarder := RunForwarder, queue := [], errors := [] }
        { cancelledAtTop := false, pullEvents := [PullEvent.cancelled],
          pushError := none, cancelDuringSleep := false } =
      ({ forwarder := RunForwarder, queue := [], errors := [] }, [],
        IterResult.continued) :=
  (loopIterationPolicy
    { forwarder := RunForwarder, queue := [], errors := [] }
    { cancelledAtTop := false, pullEvents := [PullEvent.cancelled],
      pushError := none, cancelDuringSleep := false } rfl).1 [] (by decide)

/-- C8 as stated is false on the code: when the cancellation signal fires
during the pull phase after at least one header was already dequeued,
`pullHeadersFromQueue` returns that non-empty partial batch, and the loop
body then performs a host-chain submission of it, after cancellation was
observed.  Concretely, with one header of height 7 in the queue and the
pull schedule [headerReady, cancelled], the iteration still emits a
`submitHeaders` host-chain call. -/
theorem cancellationSubmissionCounterexample :
    ¬ (∀ (s : LoopState) (env : IterEnv) (b : List Header),
        PullEvent.cancelled ∈ env.pullEvents →
        ¬ LoopAction.host (HostAction.submitHeaders b) ∈
          (loopIteration s env).2.1) := by
  intro hclaim
  exact hclaim { forwarder := RunForwarder, queue := [hdrSeven], errors := [] }
    { cancelledAtTop := false,
      pullEvents := [PullEvent.headerReady, PullEvent.cancelled],
      pushError := none, cancelDuringSleep := true }
    [hdrSeven] (by decide) (by decide)

/-- C8 amended: once cancellation is observed at the top of an iteration,
the loop stops with the state (in particular the queue) unchanged and no
host-chain action at all; in any iteration, every header of every
submission performed belongs to the batch pulled in that same iteration
(headers dequeued before cancellation could be observed), and the queue
after the iteration is exactly what the pull phase left; and from the
moment the pull phase observes cancellation the queue is untouched. -/
theorem cancellationScopedBehavior :
    (∀ (s : LoopState) (env : IterEnv) (envs : List IterEnv),
      env.cancelledAtTop = true →
      loopRun s (env :: envs) = (s, [], some StopReason.cancelled)) ∧
    (∀ (s : LoopState) (env : IterEnv) (batch q2 : List Header),
      env.cancelledAtTop = false →
      pullHeadersFromQueue [] s.queue env.pullEvents = some (batch, q2) →
      (loopIteration s env).1.queue = q2 ∧
      (∀ b x, LoopAction.host (HostAction.submitHeaders b) ∈
          (loopIteration s env).2.1 → x ∈ b → x ∈ batch)) ∧
    (∀ (headers queue : List Header) (rest : List PullEvent),
      pullHeadersFromQueue headers queue (PullEvent.cancelled :: rest) =
        some (headers, queue)) := by
  refine ⟨?_, ?_, pull_cancel_helper⟩
  · intro s env envs hc
    simp [loopRun, loopIteration, hc]
  · intro s env batch q2 hc hp
    cases batch with
    | nil =>
      constructor
      · unfold loopIteration
        simp [hc, hp]
      · intro b x hbmem hx
        unfold loopIteration at hbmem
        simp [hc, hp] at hbmem
    | cons b0 brest =>
      have hb : ¬ (b0 :: brest : List Header).isEmpty = true := by simp
      constructor
      · unfold loopIteration
        rcases he : env.pushError with _ | e <;>
          simp [hc, hp, hb, he]
      · intro b x hbmem hx
        unfold loopIteration at hbmem
        simp only [hc, Bool.false_eq_true, if_false, hp] at hbmem
        rw [if_neg hb] at hbmem
        rcases he : env.pushError with _ | e <;> rw [he] at hbmem
        · dsimp only at hbmem
          rcases List.mem_append.mp hbmem with hm | hm
          · rcases List.mem_map.mp hm with ⟨a, ha, hae⟩
            have haa : a = HostAction.submitHeaders b :=
              LoopAction.host.inj hae
            subst haa
            have hplan := push_submit_mem s.forwarder b0 brest b ha
            exact plan_mem_subset (b0 :: brest) b hplan x hx
          · rcases List.mem_singleton.mp hm with hmeq
            by_cases hcs : env.cancelDuringSleep <;>
              simp [hcs] at hmeq
        · simp at hbmem

/-- Witness for C8 amended: cancellation observed at the top of the first
iteration stops the loop with the queue untouched and no actions. -/
theorem cancellationScopedBehavior_witness :
    loopRun { forwarder := RunForwarder, queue := [hdrSeven], errors := [] }
        [{ cancelledAtTop := true, pullEvents := [], pushError := none,
           cancelDuringSleep := false }] =
      ({ forwarder := RunForwarder, queue := [hdrSeven], errors := [] }, [],
        some StopReason.cancelled) :=
  cancellationScopedBehavior.1
    { forwarder := RunForwarder, queue := [hdrSeven], errors := [] }
    { cancelledAtTop := true, pullEvents := [], pushError := none,
      cancelDuringSleep := false } [] rfl

end Relay
